import Mathlib

/-!
Shallow embedding of `sw_manager.py` (firesim-software): the dependency
graph builder (`addDep`), the image provisioner (`makeImage`), the mount
transaction (`copyImgFiles`), the binary builder (`makeBin`) and the
launch-command helpers (`getSpikeCmd`, `getQemuCmd`).

Effectful Python functions are embedded as pure functions from an explicit
host environment (`Host`) to a trace of external events (`Event`) paired
with an optional exception (`Err`).  Shell commands are kept as the literal
strings/argument lists the source builds, so the trace records the de-facto
wire protocol at the process boundary.
-/

/-- Exceptions the embedded code can raise (Python exception classes). -/
inductive Err where
  | valueError (msg : String)
  | keyError (key : String)
  | typeError
  | calledProcessError
  deriving Repr, DecidableEq, Inhabited

/-- One file-copy specification, as produced by the config system:
a source path (or glob) and a destination path. -/
structure FileSpec where
  src : String
  dst : String
  deriving Repr, DecidableEq, Inhabited

/-- The `runSpec` config object: either a script path or a literal command
(`sw_manager.py` reads `.path` and `.command`). -/
structure RunSpec where
  path : Option String := none
  command : Option String := none
  deriving Repr, DecidableEq, Inhabited

/-- One configuration record (a Python dict with optional keys).  A key `k`
being present in the dict is embedded as the corresponding field being
`some _`; `config['k']` on an absent key raises `KeyError`. -/
structure ConfigBase where
  name : String
  bin : String
  img : Option String := none
  initramfs : Option Bool := none
  linuxConfig : Option String := none
  linuxSrc : Option String := none
  baseImg : Option String := none
  files : Option (List FileSpec) := none
  guestInit : Option String := none
  runSpec : Option RunSpec := none
  cfgFile : Option String := none
  deriving Repr, DecidableEq, Inhabited

/-- A top-level workload configuration: a base record plus the optional
`jobs` mapping (embedded as the list of its values in iteration order). -/
structure Config extends ConfigBase where
  jobs : Option (List ConfigBase) := none
  deriving Repr, DecidableEq, Inhabited

/-- The host environment: the fixed mount point `mnt` (from `util.config`),
the invoking uid, and oracles for the external world (path queries, shell
command success, directory walks).

`genRunScript` and `generateBootScriptOverlay` live in the `util`/builder
modules that are not part of this file's source; `genRunScript` is kept
abstract as an environment field.  Modelled from the spec: `genRunScript`
synthesizes a temporary script wrapping a literal command. -/
structure Host where
  mnt : String
  uid : Nat
  jlevel : String
  tmpCpioName : String
  pathExists : String → Bool
  isdir : String → Bool
  islink : String → Bool
  walkFiles : String → List String
  runOk : String → Bool
  checkCallOk : String → Bool
  genRunScript : String → String

/-- External events: each constructor records one process/filesystem
side effect exactly as the source issues it. -/
inductive Event where
  | runCmd (cmd : String)
  | runArgs (args : List String) (cwd : Option String)
  | checkCall (cmd : String)
  | copyFile (src dst : String)
  | rmtree (p : String)
  | mkdirOs (p : String)
  | toCpio (img cpio : String)
  | convertInitramfsConfig (cfg cpio : String)
  | overlay (img : String) (script : Option String)
  deriving Repr, DecidableEq

/-!
`os.path.normpath` (POSIX flavour), translated from CPython's
`posixpath.normpath`: split on `/`, drop empty and `.` components, resolve
`..`, remember whether the path started with one or two slashes.
-/

/-- Split a character list on `/` (CPython `path.split(sep)`). -/
def splitSlash : List Char → List (List Char)
  | [] => [[]]
  | c :: rest =>
    if c = '/' then [] :: splitSlash rest
    else
      match splitSlash rest with
      | [] => [[c]]
      | h :: t => (c :: h) :: t

/-- The component-processing loop of `posixpath.normpath`: `acc` holds the
kept components in reverse. -/
def procComps (initSlashes : Nat) (acc : List (List Char)) :
    List (List Char) → List (List Char)
  | [] => acc.reverse
  | comp :: rest =>
    if comp = [] ∨ comp = ['.'] then procComps initSlashes acc rest
    else if comp ≠ ['.', '.'] ∨ (initSlashes = 0 ∧ acc = [])
            ∨ acc.head? = some ['.', '.'] then
      procComps initSlashes (comp :: acc) rest
    else
      match acc with
      | [] => procComps initSlashes [] rest
      | _ :: t => procComps initSlashes t rest

/-- Join components with `/` (CPython `sep.join(comps)`). -/
def joinSlash : List (List Char) → List Char
  | [] => []
  | [c] => c
  | c :: rest => c ++ '/' :: joinSlash rest

/-- The character-level body of `posixpath.normpath` on a nonempty path. -/
def normpathCore (cs : List Char) : List Char :=
  let initSlashes : Nat :=
    if cs.take 2 = ['/', '/'] ∧ cs.take 3 ≠ ['/', '/', '/'] then 2
    else if cs.head? = some '/' then 1
    else 0
  let comps := procComps initSlashes [] (splitSlash cs)
  List.replicate initSlashes '/' ++ joinSlash comps

/-- CPython `posixpath.normpath`. -/
def normpath (s : String) : String :=
  if s = "" then "."
  else
    let joined := normpathCore s.toList
    if joined = [] then "." else ⟨joined⟩

/-- CPython `posixpath.join` for the two-argument uses in the source. -/
def osPathJoin (a b : String) : String :=
  if b.startsWith "/" then b
  else if a = "" ∨ a.endsWith "/" then a ++ b
  else a ++ "/" ++ b

example : normpath "/mnt/firesim/etc/motd" = "/mnt/firesim/etc/motd" := by decide
example : normpath "/mnt//./a/../b" = "/mnt/b" := by decide
example : normpath "" = "." := by decide
example : normpath "//a" = "//a" := by decide

/-!
`copyImgFiles(img, files, direction)` (source lines 400-429): mkdir the
mount point if missing, loop-mount the image, rsync each `FileSpec` in the
requested direction inside a `try`, and unmount in the `finally` block so
the unmount runs on every exit path before any exception propagates.
-/

/-- The rsync target of an inbound copy: `os.path.normpath(mnt + f.dst)`
(string concatenation, deliberately not `os.path.join`). -/
def inboundTarget (env : Host) (f : FileSpec) : String :=
  normpath (env.mnt ++ f.dst)

/-- The inbound rsync command string the source builds for one spec. -/
def inboundCmd (env : Host) (f : FileSpec) : String :=
  "sudo rsync -a --chown=root:root " ++ f.src ++ " " ++ inboundTarget env f

/-- The outbound rsync command string the source builds for one spec. -/
def outboundCmd (env : Host) (f : FileSpec) : String :=
  "sudo rsync -a --chown=" ++ toString env.uid ++ ":" ++ toString env.uid
    ++ " " ++ normpath (env.mnt ++ f.src) ++ " " ++ f.dst

/-- The `for f in files:` body of `copyImgFiles`: dispatch on `direction`,
issue the rsync, stop at the first failure or at an unrecognized
direction. -/
def copyLoop (env : Host) (direction : String) :
    List FileSpec → List Event × Option Err
  | [] => ([], none)
  | f :: rest =>
    if direction = "in" then
      let cmd := inboundCmd env f
      if env.runOk cmd then
        let r := copyLoop env direction rest
        (Event.runCmd cmd :: r.1, r.2)
      else ([Event.runCmd cmd], some Err.calledProcessError)
    else if direction = "out" then
      let cmd := outboundCmd env f
      if env.runOk cmd then
        let r := copyLoop env direction rest
        (Event.runCmd cmd :: r.1, r.2)
      else ([Event.runCmd cmd], some Err.calledProcessError)
    else ([], some (Err.valueError "direction option must be either 'in' or 'out'"))

/-- The unmount command issued in the `finally` block. -/
def umountEvent (env : Host) : Event :=
  Event.runArgs ["sudo", "umount", env.mnt] none

/-- `copyImgFiles` itself.  The returned trace always ends with the
unmount, whether the loop succeeded or raised. -/
def copyImgFiles (env : Host) (img : String) (files : List FileSpec)
    (direction : String) : List Event × Option Err :=
  let pre : List Event :=
    if env.pathExists env.mnt then [] else [Event.runArgs ["mkdir", env.mnt] none]
  let mountEv := Event.runArgs ["sudo", "mount", "-o", "loop", img, env.mnt] none
  let body := copyLoop env direction files
  (pre ++ [mountEv] ++ body.1 ++ [umountEvent env], body.2)

/-- The rsync events of a trace (the actual file-copy steps). -/
def rsyncEvents (t : List Event) : List Event :=
  t.filter fun e => match e with
    | Event.runCmd _ => true
    | _ => false

/-!
Launch-command helpers (source lines 247-280).
-/

/-- `getSpikeCmd(config, initramfs)`: spike only supports disk-less
configurations unless the initramfs binary is requested. -/
def getSpikeCmd (cfg : ConfigBase) (initramfs : Bool) : Except Err String :=
  if initramfs then
    Except.ok ("spike -p4 -m4096 " ++ cfg.bin ++ "-initramfs")
  else if cfg.img.isNone then
    Except.ok ("spike -p4 -m4096 " ++ cfg.bin)
  else
    Except.error (Err.valueError "Spike does not support disk-based configurations")

/-- `getQemuCmd(config, initramfs)`: the qemu command line, with the block
device and root= append only for disk-based, non-initramfs launches. -/
def getQemuCmd (cfg : ConfigBase) (initramfs : Bool) : String :=
  let exe := if initramfs then cfg.bin ++ "-initramfs" else cfg.bin
  let cmd := ["qemu-system-riscv64",
              "-nographic",
              "-smp", "4",
              "-machine", "virt",
              "-m", "4G",
              "-kernel", exe,
              "-object", "rng-random,filename=/dev/urandom,id=rng0",
              "-device", "virtio-rng-device,rng=rng0",
              "-device", "virtio-net-device,netdev=usernet",
              "-netdev", "user,id=usernet,hostfwd=tcp::10000-:22"]
  let cmd :=
    match cfg.img, initramfs with
    | some i, false =>
        cmd ++ ["-device", "virtio-blk-device,drive=hd0",
                "-drive", "file=" ++ i ++ ",format=raw,id=hd0"]
            ++ ["-append", "\"ro root=/dev/vda\""]
    | _, _ => cmd
  String.intercalate " " cmd

/-!
The dependency graph builder `addDep(loader, config)` (source lines
101-170).  The Python function appends up to three rule dicts to
`loader.workloads`; it is embedded as returning the list of rules appended
so far, paired with the `KeyError` raised at `config['img']` when an
`initramfs` key is present without an `img` key.
-/

/-- A build-rule action, tagged with the closed-over configuration. -/
inductive RuleAction where
  | makeBinAct (cfg : ConfigBase) (initramfs : Bool)
  | makeImageAct (cfg : ConfigBase)
  deriving Repr, DecidableEq, Inhabited

/-- One doit rule dict as `addDep` builds it. -/
structure Rule where
  name : String
  action : RuleAction
  targets : List String
  fileDep : List String
  taskDep : List String
  hasUptodate : Bool
  deriving Repr, DecidableEq, Inhabited

/-- The expansion of one `files` entry into file dependencies: directories
are walked recursively, and symlinks are skipped in both branches. -/
def expandOne (sys : Host) (f : FileSpec) : List String :=
  if sys.isdir f.src then
    (sys.walkFiles f.src).filter fun d => !sys.islink d
  else if sys.islink f.src then []
  else [f.src]

/-- The full `for fSpec in config['files']:` expansion loop. -/
def expandFiles (sys : Host) : List FileSpec → List String
  | [] => []
  | f :: rest => expandOne sys f ++ expandFiles sys rest

/-- `optList o` is `[x]` when key `o` is present with value `x`, else `[]`. -/
def optList : Option String → List String
  | some x => [x]
  | none => []

/-- The image rule built at source lines 135-170 (assuming `img` present):
file deps are `base-img`, the expanded `files`, `guest-init`, the `runSpec`
path when not `None`, and `cfg-file`, in that order; task deps are
`base-img` and, when `guest-init` is present, `bin`. -/
def imgRule (sys : Host) (cfg : ConfigBase) (i : String) : Rule :=
  let fileDep :=
    optList cfg.baseImg
      ++ (match cfg.files with
          | some fl => expandFiles sys fl
          | none => [])
      ++ optList cfg.guestInit
      ++ (match cfg.runSpec with
          | some rs => optList rs.path
          | none => [])
      ++ optList cfg.cfgFile
  let taskDep :=
    optList cfg.baseImg
      ++ (match cfg.guestInit with
          | some _ => [cfg.bin]
          | none => [])
  { name := i
    action := RuleAction.makeImageAct cfg
    targets := [i]
    fileDep := fileDep
    taskDep := taskDep
    hasUptodate := false }

/-- `addDep(loader, config)`: emit the binary rule, then (if `initramfs`
present) the initramfs-binary rule — raising `KeyError 'img'` at
`file_deps = [config['img']]` when `img` is absent — then (if `img`
present) the image rule. -/
def addDep (sys : Host) (cfg : ConfigBase) : List Rule × Option Err :=
  let binRule : Rule :=
    { name := cfg.bin
      action := RuleAction.makeBinAct cfg false
      targets := [cfg.bin]
      fileDep := optList cfg.linuxConfig
      taskDep := []
      hasUptodate := true }
  let rules := [binRule]
  if cfg.initramfs.isSome then
    match cfg.img with
    | none => (rules, some (Err.keyError "img"))
    | some i =>
      let initramfsRule : Rule :=
        { name := cfg.bin ++ "-initramfs"
          action := RuleAction.makeBinAct cfg true
          targets := [cfg.bin ++ "-initramfs"]
          fileDep := [i] ++ optList cfg.linuxConfig
          taskDep := [i]
          hasUptodate := false }
      (rules ++ [initramfsRule] ++ [imgRule sys cfg i], none)
  else
    match cfg.img with
    | none => (rules, none)
    | some i => (rules ++ [imgRule sys cfg i], none)

/-- The `initramfs` flag push-down in `main` (source lines 66-71), run when
`--initramfs` was passed with the `build` or `launch` command: set the flag
on the target config and on every job record. -/
def pushInitramfs (cfg : Config) : Config :=
  let cfg := { cfg with initramfs := some true }
  match cfg.jobs with
  | none => cfg
  | some js =>
    { cfg with jobs := some (js.map fun j => { j with initramfs := some true }) }

/-!
The binary builder `makeBin(config, initramfs)` (source lines 318-347).
If `linux-config` is absent it does nothing; otherwise it copies the kernel
config into the kernel tree, optionally splices an initramfs archive in,
and runs the kernel and payload-loader builds.
-/

/-- `makeBin`. -/
def makeBin (env : Host) (cfg : ConfigBase) (initramfs : Bool) :
    List Event × Option Err :=
  match cfg.linuxConfig with
  | none => ([], none)
  | some lc =>
    match cfg.linuxSrc with
    | none => ([], some (Err.keyError "linux-src"))
    | some src =>
      let linuxCfg := osPathJoin src ".config"
      let t0 := [Event.copyFile lc linuxCfg]
      let kernelPart : List Event × Option Err :=
        if initramfs then
          match cfg.img with
          | none => ([], some (Err.keyError "img"))
          | some i =>
            ([Event.toCpio i env.tmpCpioName,
              Event.convertInitramfsConfig linuxCfg env.tmpCpioName,
              Event.runArgs ["make", "ARCH=riscv", "olddefconfig"] (some src),
              Event.runArgs ["make", "ARCH=riscv", "vmlinux", env.jlevel] (some src)], none)
        else
          ([Event.runArgs ["make", "ARCH=riscv", "vmlinux", env.jlevel] (some src)], none)
      match kernelPart with
      | (t1, some e) => (t0 ++ t1, some e)
      | (t1, none) =>
        let t2 :=
          (if env.pathExists "riscv-pk/build" then [Event.rmtree "riscv-pk/build"] else [])
            ++ [Event.mkdirOs "riscv-pk/build",
                Event.runArgs ["../configure", "--host=riscv64-unknown-elf",
                  "--with-payload=" ++ osPathJoin src "vmlinux"] (some "riscv-pk/build"),
                Event.runArgs ["make", env.jlevel] (some "riscv-pk/build"),
                Event.copyFile "riscv-pk/build/bbl"
                  (if initramfs then cfg.bin ++ "-initramfs" else cfg.bin)]
        (t0 ++ t1 ++ t2, none)

/-!
The image provisioner `makeImage(config)` (source lines 349-388).
The boot-script overlay primitive (`builder.generateBootScriptOverlay`
followed by `applyOverlay`) lives in the builder modules outside this
file's source; modelled from the spec: a single primitive
"set default boot action, parameterized by script path or none", recorded
as one `Event.overlay` carrying the script argument.
-/

/-- Sequencing of trace-producing steps: run `k` only when `x` did not
raise, concatenating traces (a raised exception aborts the rest). -/
def andThen (x : List Event × Option Err) (k : Unit → List Event × Option Err) :
    List Event × Option Err :=
  match x.2 with
  | none => let r := k (); (x.1 ++ r.1, r.2)
  | some e => (x.1, some e)

/-- The script a `runSpec` resolves to: `genRunScript(command)` when a
literal command is given, else the spec's path. -/
def resolveRunScript (env : Host) (rs : RunSpec) : Option String :=
  match rs.command with
  | some c => some (env.genRunScript c)
  | none => rs.path

/-- Phase 1 of `makeImage`: copy `base-img` over `img` when present. -/
def miBase (cfg : ConfigBase) : List Event × Option Err :=
  match cfg.baseImg with
  | none => ([], none)
  | some b =>
    match cfg.img with
    | none => ([], some (Err.keyError "img"))
    | some i => ([Event.copyFile b i], none)

/-- Phase 2 of `makeImage`: apply the `files` list via an inbound mount
transaction. -/
def miFiles (env : Host) (cfg : ConfigBase) : List Event × Option Err :=
  match cfg.files with
  | none => ([], none)
  | some fl =>
    match cfg.img with
    | none => ([], some (Err.keyError "img"))
    | some i => copyImgFiles env i fl "in"

/-- Phase 3 of `makeImage`: the guest-init protocol — check the script
exists, install it as the boot action, boot the image once under qemu,
then clear the boot action with an overlay generated from no script. -/
def miGuestInit (env : Host) (cfg : ConfigBase) : List Event × Option Err :=
  match cfg.guestInit with
  | none => ([], none)
  | some g =>
    if env.pathExists g then
      match cfg.img with
      | none => ([], some (Err.keyError "img"))
      | some i =>
        let bootCmd := getQemuCmd cfg false
        if env.checkCallOk bootCmd then
          ([Event.overlay i (some g), Event.checkCall bootCmd,
            Event.overlay i none], none)
        else
          ([Event.overlay i (some g), Event.checkCall bootCmd],
           some Err.calledProcessError)
    else ([], some (Err.valueError ("Init script " ++ g ++ " not found.")))

/-- Phase 4 of `makeImage`: install the `runSpec` script or command wrapper
as the image's default boot action (the last overlay applied). -/
def miRunSpec (env : Host) (cfg : ConfigBase) : List Event × Option Err :=
  match cfg.runSpec with
  | none => ([], none)
  | some rs =>
    match resolveRunScript env rs with
    | none => ([], some Err.typeError)
    | some s =>
      if env.pathExists s then
        match cfg.img with
        | none => ([], some (Err.keyError "img"))
        | some i => ([Event.overlay i (some s)], none)
      else ([], some (Err.valueError ("Run script " ++ s ++ " not found.")))

/-- `makeImage(config)`: the four phases in source order. -/
def makeImage (env : Host) (cfg : ConfigBase) : List Event × Option Err :=
  andThen (miBase cfg) fun _ =>
  andThen (miFiles env cfg) fun _ =>
  andThen (miGuestInit env cfg) fun _ =>
  miRunSpec env cfg

/-- The boot-script overlay applications of a trace, in order, each
represented by its generating script argument (`none` = clearing overlay). -/
def overlayArgs : List Event → List (Option String)
  | [] => []
  | Event.overlay _ s :: t => s :: overlayArgs t
  | _ :: t => overlayArgs t

/-- Helper: `overlayArgs` distributes over append. -/
theorem overlayArgs_append (a b : List Event) :
    overlayArgs (a ++ b) = overlayArgs a ++ overlayArgs b := by
  induction a with
  | nil => rfl
  | cons e t ih => cases e <;> simp [overlayArgs, ih]

/-- Helper: the copy loop issues only rsync commands, never an overlay. -/
theorem overlayArgs_copyLoop (env : Host) (d : String) (fl : List FileSpec) :
    overlayArgs (copyLoop env d fl).1 = [] := by
  induction fl with
  | nil => rfl
  | cons f rest ih =>
    unfold copyLoop
    dsimp only
    split_ifs <;> simp [overlayArgs, ih]

/-- Helper: a mount transaction applies no boot-script overlay. -/
theorem overlayArgs_copyImgFiles (env : Host) (i : String) (fl : List FileSpec)
    (d : String) : overlayArgs (copyImgFiles env i fl d).1 = [] := by
  unfold copyImgFiles
  dsimp only
  rw [overlayArgs_append, overlayArgs_append, overlayArgs_append,
    overlayArgs_copyLoop]
  split_ifs <;> simp [overlayArgs, umountEvent]

/-- Helper: success and trace decomposition of `andThen`. -/
theorem andThen_ok {x : List Event × Option Err}
    {k : Unit → List Event × Option Err} (h : (andThen x k).2 = none) :
    x.2 = none ∧ (k ()).2 = none ∧ (andThen x k).1 = x.1 ++ (k ()).1 := by
  cases hx : x.2 with
  | none =>
    have h1 : andThen x k = (x.1 ++ (k ()).1, (k ()).2) := by
      unfold andThen
      rw [hx]
    rw [h1] at h
    exact ⟨rfl, h, by rw [h1]⟩
  | some e =>
    have h1 : andThen x k = (x.1, some e) := by
      unfold andThen
      rw [hx]
    rw [h1] at h
    exact absurd h (by simp)

/-- Helper: on success, `makeImage` is the concatenation of its four
phases, each of which succeeded. -/
theorem makeImage_decomp (env : Host) (cfg : ConfigBase)
    (hok : (makeImage env cfg).2 = none) :
    (miBase cfg).2 = none ∧ (miFiles env cfg).2 = none ∧
      (miGuestInit env cfg).2 = none ∧ (miRunSpec env cfg).2 = none ∧
      (makeImage env cfg).1 =
        (miBase cfg).1 ++ (miFiles env cfg).1 ++ (miGuestInit env cfg).1
          ++ (miRunSpec env cfg).1 := by
  unfold makeImage at hok ⊢
  obtain ⟨h1, h2, e1⟩ := andThen_ok hok
  obtain ⟨h3, h4, e2⟩ := andThen_ok h2
  obtain ⟨h5, h6, e3⟩ := andThen_ok h4
  refine ⟨h1, h3, h5, h6, ?_⟩
  rw [e1, e2, e3]
  simp [List.append_assoc]

/-- Helper: phase 1 applies no overlay. -/
theorem miBase_no_overlay (cfg : ConfigBase) : overlayArgs (miBase cfg).1 = [] := by
  cases hb : cfg.baseImg <;> cases hi : cfg.img <;>
    simp [miBase, hb, hi, overlayArgs]

/-- Helper: phase 2 applies no overlay. -/
theorem miFiles_no_overlay (env : Host) (cfg : ConfigBase) :
    overlayArgs (miFiles env cfg).1 = [] := by
  cases hf : cfg.files <;> cases hi : cfg.img <;>
    simp [miFiles, hf, hi, overlayArgs, overlayArgs_copyImgFiles]

/-- Helper: a successful guest-init phase applies exactly the init-script
overlay followed by the clearing overlay. -/
theorem miGuestInit_overlays (env : Host) (cfg : ConfigBase) (g : String)
    (hg : cfg.guestInit = some g) (hok : (miGuestInit env cfg).2 = none) :
    overlayArgs (miGuestInit env cfg).1 = [some g, none] := by
  simp only [miGuestInit, hg] at hok ⊢
  by_cases hex : env.pathExists g = true
  · rw [if_pos hex] at hok ⊢
    cases hi : cfg.img with
    | none =>
      simp only [hi] at hok
      exact absurd hok (by simp)
    | some i =>
      simp only [hi] at hok ⊢
      by_cases hq : env.checkCallOk (getQemuCmd cfg false) = true
      · rw [if_pos hq]
        rfl
      · rw [if_neg hq] at hok
        exact absurd hok (by simp)
  · rw [if_neg hex] at hok
    exact absurd hok (by simp)

/-- Helper: a successful runSpec phase applies exactly one overlay, built
from the resolved run script. -/
theorem miRunSpec_overlays (env : Host) (cfg : ConfigBase) (rs : RunSpec)
    (hrs : cfg.runSpec = some rs) (hok : (miRunSpec env cfg).2 = none) :
    ∃ s, resolveRunScript env rs = some s ∧
      overlayArgs (miRunSpec env cfg).1 = [some s] := by
  simp only [miRunSpec, hrs] at hok ⊢
  cases hres : resolveRunScript env rs with
  | none =>
    simp only [hres] at hok
    exact absurd hok (by simp)
  | some s =>
    simp only [hres] at hok ⊢
    by_cases hex : env.pathExists s = true
    · rw [if_pos hex] at hok ⊢
      cases hi : cfg.img with
      | none =>
        simp only [hi] at hok
        exact absurd hok (by simp)
      | some i =>
        simp only [hi]
        exact ⟨s, rfl, rfl⟩
    · rw [if_neg hex] at hok
      exact absurd hok (by simp)

/-- Claim C1: for every successfully provisioned configuration with
`guest-init` set: if `runSpec` is absent, the overlays applied are the
init-script overlay followed by the clearing overlay (generated from no
script), so the image's final default boot action is cleared; if `runSpec`
is present, the run-script overlay is applied strictly after the
init-clearing overlay, so the final default boot action is the run
script/command. -/
theorem makeImage_overlay_protocol (env : Host) (cfg : ConfigBase) (g : String)
    (hg : cfg.guestInit = some g) (hok : (makeImage env cfg).2 = none) :
    (cfg.runSpec = none → overlayArgs (makeImage env cfg).1 = [some g, none]) ∧
      (∀ rs, cfg.runSpec = some rs →
        ∃ s, resolveRunScript env rs = some s ∧
          overlayArgs (makeImage env cfg).1 = [some g, none, some s]) := by
  obtain ⟨-, -, hgi, hrsOk, htr⟩ := makeImage_decomp env cfg hok
  rw [htr, overlayArgs_append, overlayArgs_append, overlayArgs_append,
    miBase_no_overlay, miFiles_no_overlay, miGuestInit_overlays env cfg g hg hgi]
  constructor
  · intro hnone
    have hmr : miRunSpec env cfg = ([], none) := by simp [miRunSpec, hnone]
    rw [hmr]
    rfl
  · intro rs hrs
    obtain ⟨s, hres, hov⟩ := miRunSpec_overlays env cfg rs hrs hrsOk
    refine ⟨s, hres, ?_⟩
    rw [hov]
    rfl

/-- A concrete host used to evaluate the embedded code on concrete
configurations: every path exists, no path is a directory or symlink, and
every external command succeeds. -/
def sys0 : Host :=
  { mnt := "/mnt/firesim"
    uid := 1000
    jlevel := "-j16"
    tmpCpioName := "/tmp/firesim.cpio"
    pathExists := fun _ => true
    isdir := fun _ => false
    islink := fun _ => false
    walkFiles := fun _ => []
    runOk := fun _ => true
    checkCallOk := fun _ => true
    genRunScript := fun c => "/tmp/run-" ++ c ++ ".sh" }

/-- Concrete configuration with `guest-init` and no `runSpec`. -/
def cfg1 : ConfigBase :=
  { name := "t1", bin := "t1.bin", img := some "t1.img",
    guestInit := some "init.sh" }

/-- Witness for `makeImage_overlay_protocol` at a concrete config. -/
theorem makeImage_overlay_protocol_witness :
    overlayArgs (makeImage sys0 cfg1).1 = [some "init.sh", none] :=
  (makeImage_overlay_protocol sys0 cfg1 "init.sh" rfl rfl).1 rfl

/-- Helper: a string never equals itself extended by `-initramfs`. -/
theorem ne_self_append_initramfs (s : String) : s ≠ s ++ "-initramfs" := by
  intro h
  have hlen := congrArg String.length h
  simp [String.length_append] at hlen
  exact absurd hlen (by decide)


/-- Helper: the loop body of `copyImgFiles` with an unrecognized direction
raises `ValueError` on the first file and copies nothing; with no files it
never reaches the dispatch. -/
theorem copyLoop_bad_direction (env : Host) (direction : String)
    (files : List FileSpec) (h1 : direction ≠ "in") (h2 : direction ≠ "out") :
    copyLoop env direction files =
      ([], match files with
           | [] => none
           | _ :: _ => some (Err.valueError "direction option must be either 'in' or 'out'")) := by
  cases files with
  | nil => rfl
  | cons f rest => simp [copyLoop, h1, h2]

/-- Claim C2: on every exit path of `copyImgFiles` — normal return, rsync
failure, or unrecognized-direction `ValueError` — the last external action
in the trace is the unmount of the fixed mount point, so the filesystem is
detached before any error propagates to the caller. -/
theorem copyImgFiles_always_unmounts (env : Host) (img : String)
    (files : List FileSpec) (direction : String) :
    ((copyImgFiles env img files direction).1).getLast? = some (umountEvent env) := by
  unfold copyImgFiles
  dsimp only
  exact List.getLast?_concat _

/-- Claim C7: with no `linux-config` key, `makeBin` is a no-op — an empty
event trace and no exception, for either value of `initramfs`. -/
theorem makeBin_noop_without_linux_config (env : Host) (cfg : ConfigBase)
    (initramfs : Bool) (h : cfg.linuxConfig = none) :
    makeBin env cfg initramfs = ([], none) := by
  simp [makeBin, h]

/-- Witness for `makeBin_noop_without_linux_config` at a concrete config. -/
theorem makeBin_noop_without_linux_config_witness :
    ({ name := "t", bin := "t.bin" } : ConfigBase).linuxConfig = none ∧
      makeBin sys0 { name := "t", bin := "t.bin" } true = ([], none) :=
  ⟨rfl, makeBin_noop_without_linux_config sys0 { name := "t", bin := "t.bin" } true rfl⟩

/-- Counterexample to claim C8 as stated: with an empty file list and the
unrecognized direction "bogus", `copyImgFiles` returns without raising any
error — the `ValueError` is only raised inside the per-file loop. -/
theorem copyImgFiles_bad_direction_cex :
    ("bogus" : String) ≠ "in" ∧ ("bogus" : String) ≠ "out" ∧
      (copyImgFiles sys0 "test.img" [] "bogus").2 = none := by
  refine ⟨by decide, by decide, ?_⟩
  rfl

/-- Claim C8 (amended): with a direction other than "in"/"out" no file is
ever copied, and the call raises `ValueError` exactly when the file list is
nonempty (the check sits inside the per-file loop, so an empty list returns
normally). -/
theorem copyImgFiles_bad_direction (env : Host) (img : String)
    (files : List FileSpec) (direction : String)
    (h1 : direction ≠ "in") (h2 : direction ≠ "out") :
    rsyncEvents (copyImgFiles env img files direction).1 = [] ∧
      (files ≠ [] →
        (copyImgFiles env img files direction).2 =
          some (Err.valueError "direction option must be either 'in' or 'out'")) ∧
      (files = [] → (copyImgFiles env img files direction).2 = none) := by
  unfold copyImgFiles
  rw [copyLoop_bad_direction env direction files h1 h2]
  refine ⟨?_, ?_, ?_⟩
  · simp only [rsyncEvents, List.filter_append]
    split <;> simp [umountEvent]
  · intro hne
    cases files with
    | nil => exact absurd rfl hne
    | cons f rest => rfl
  · intro hnil
    subst hnil
    rfl

/-- Witness for `copyImgFiles_bad_direction` at a concrete call. -/
theorem copyImgFiles_bad_direction_witness :
    rsyncEvents (copyImgFiles sys0 "test.img" [{ src := "/a", dst := "/b" }] "bogus").1 = [] ∧
      ([({ src := "/a", dst := "/b" } : FileSpec)] ≠ ([] : List FileSpec) →
        (copyImgFiles sys0 "test.img" [{ src := "/a", dst := "/b" }] "bogus").2 =
          some (Err.valueError "direction option must be either 'in' or 'out'")) ∧
      (([({ src := "/a", dst := "/b" } : FileSpec)] : List FileSpec) = [] →
        (copyImgFiles sys0 "test.img" [{ src := "/a", dst := "/b" }] "bogus").2 = none) :=
  copyImgFiles_bad_direction sys0 "test.img" [{ src := "/a", dst := "/b" }] "bogus"
    (by decide) (by decide)

/-- Claim C9: an `initramfs` key without an `img` key makes `addDep` raise
`KeyError 'img'` while building the initramfs-binary rule's dependencies,
so no rule targeting `bin ++ "-initramfs"` is ever emitted; with `img`
present `addDep` raises nothing. -/
theorem addDep_initramfs_requires_img (sys : Host) (cfg : ConfigBase)
    (hini : cfg.initramfs.isSome = true) :
    (cfg.img = none →
      (addDep sys cfg).2 = some (Err.keyError "img") ∧
        ∀ r ∈ (addDep sys cfg).1, r.targets ≠ [cfg.bin ++ "-initramfs"]) ∧
      (∀ i, cfg.img = some i → (addDep sys cfg).2 = none) := by
  constructor
  · intro himg
    constructor
    · simp [addDep, hini, himg]
    · intro r hr
      simp only [addDep, hini, if_true, himg, List.mem_singleton] at hr
      subst hr
      intro heq
      have hb : cfg.bin = cfg.bin ++ "-initramfs" := by
        simpa using heq
      exact ne_self_append_initramfs cfg.bin hb
  · intro i himg
    simp [addDep, hini, himg]

/-- Witness for `addDep_initramfs_requires_img` at a concrete config. -/
theorem addDep_initramfs_requires_img_witness :
    (addDep sys0 { name := "t", bin := "t.bin", initramfs := some true }).2 =
      some (Err.keyError "img") :=
  ((addDep_initramfs_requires_img sys0
      { name := "t", bin := "t.bin", initramfs := some true } rfl).1 rfl).1

/-- Helper: whenever `img` is present, `addDep` raises nothing and the last
rule it appends is the image rule. -/
theorem addDep_last_imgRule (sys : Host) (cfg : ConfigBase) (i : String)
    (himg : cfg.img = some i) :
    (addDep sys cfg).2 = none ∧
      (addDep sys cfg).1.getLast? = some (imgRule sys cfg i) := by
  unfold addDep
  dsimp only
  rw [himg]
  by_cases hini : cfg.initramfs.isSome = true
  · rw [if_pos hini]
    exact ⟨rfl, rfl⟩
  · rw [if_neg hini]
    exact ⟨rfl, rfl⟩

/-- Concrete configuration exercising `base-img`, `guest-init` and
`cfg-file` together. -/
def cfg3 : ConfigBase :=
  { name := "test"
    bin := "test.bin"
    img := some "test.img"
    baseImg := some "base.img"
    guestInit := some "init.sh"
    cfgFile := some "test.json" }

/-- Counterexample to claim C3 as stated: with `base-img`, `guest-init` and
`cfg-file` present, the image rule's file dependencies also contain
`base-img` and `cfg-file`, and its task dependencies also contain `bin`
(appended by the `guest-init` branch), contradicting "exactly the expanded
files, guest-init and runSpec path" / "exactly base-img". -/
theorem addDep_img_deps_cex :
    (addDep sys0 cfg3).1.getLast?.map Rule.fileDep =
        some ["base.img", "init.sh", "test.json"] ∧
      (addDep sys0 cfg3).1.getLast?.map Rule.taskDep =
        some ["base.img", "test.bin"] ∧
      (addDep sys0 cfg3).1.getLast?.map Rule.fileDep ≠ some ["init.sh"] ∧
      (addDep sys0 cfg3).1.getLast?.map Rule.taskDep ≠ some ["base.img"] := by
  decide

/-- Claim C3 (amended): for every configuration with an `img` field, the
image rule is emitted (last), with file dependencies consisting exactly of
`base-img` when present, then the recursively expanded `files` list
(symlinks excluded), then `guest-init` when present, then the `runSpec`
path when it names a file, then `cfg-file` when present; and task
dependencies consisting exactly of `base-img` when present followed by the
`bin` target when `guest-init` is present. -/
theorem addDep_img_rule_deps (sys : Host) (cfg : ConfigBase) (i : String)
    (himg : cfg.img = some i) :
    (addDep sys cfg).2 = none ∧
      ∃ r, (addDep sys cfg).1.getLast? = some r ∧ r.name = i ∧ r.targets = [i] ∧
        r.fileDep = optList cfg.baseImg
            ++ (match cfg.files with
                | some fl => expandFiles sys fl
                | none => [])
            ++ optList cfg.guestInit
            ++ (match cfg.runSpec with
                | some rs => optList rs.path
                | none => [])
            ++ optList cfg.cfgFile ∧
        r.taskDep = optList cfg.baseImg
            ++ (match cfg.guestInit with
                | some _ => [cfg.bin]
                | none => []) := by
  obtain ⟨h2, hlast⟩ := addDep_last_imgRule sys cfg i himg
  exact ⟨h2, imgRule sys cfg i, hlast, rfl, rfl, rfl, rfl⟩

/-- Witness for `addDep_img_rule_deps` at a concrete config. -/
theorem addDep_img_rule_deps_witness : (addDep sys0 cfg3).2 = none :=
  (addDep_img_rule_deps sys0 cfg3 "test.img" rfl).1

/-- Helper: membership in the expansion of one `files` entry. -/
theorem mem_expandOne (sys : Host) (f : FileSpec) (d : String) :
    d ∈ expandOne sys f ↔
      (sys.isdir f.src = true ∧ d ∈ sys.walkFiles f.src ∧ sys.islink d = false)
        ∨ (sys.isdir f.src = false ∧ d = f.src ∧ sys.islink f.src = false) := by
  unfold expandOne
  cases hdir : sys.isdir f.src
  · cases hlink : sys.islink f.src <;> simp [hdir, hlink]
  · simp [hdir, List.mem_filter]

/-- Helper: membership in the expansion of a `files` list. -/
theorem mem_expandFiles (sys : Host) (fl : List FileSpec) (d : String) :
    d ∈ expandFiles sys fl ↔ ∃ f ∈ fl, d ∈ expandOne sys f := by
  induction fl with
  | nil => simp [expandFiles]
  | cons f rest ih => simp [expandFiles, ih, List.mem_append]

/-- Claim C5: the image rule's file dependencies embed the `files`
expansion, and a path is contributed by a `files` entry iff either the
entry's source is a directory and the path is a non-symlink file reachable
under it, or the source is a file, equal to the path, and not a symlink. -/
theorem addDep_files_symlink_expansion (sys : Host) (cfg : ConfigBase)
    (i : String) (fl : List FileSpec)
    (himg : cfg.img = some i) (hfl : cfg.files = some fl) :
    (∃ r, (addDep sys cfg).1.getLast? = some r ∧ r.targets = [i] ∧
        ∃ pre post, r.fileDep = pre ++ expandFiles sys fl ++ post) ∧
      ∀ d, d ∈ expandFiles sys fl ↔
        ∃ f ∈ fl,
          (sys.isdir f.src = true ∧ d ∈ sys.walkFiles f.src ∧ sys.islink d = false)
            ∨ (sys.isdir f.src = false ∧ d = f.src ∧ sys.islink f.src = false) := by
  constructor
  · obtain ⟨-, hlast⟩ := addDep_last_imgRule sys cfg i himg
    refine ⟨imgRule sys cfg i, hlast, rfl,
      optList cfg.baseImg,
      optList cfg.guestInit
        ++ (match cfg.runSpec with
            | some rs => optList rs.path
            | none => [])
        ++ optList cfg.cfgFile, ?_⟩
    unfold imgRule
    dsimp only
    rw [hfl]
    simp [List.append_assoc]
  · intro d
    rw [mem_expandFiles]
    constructor
    · rintro ⟨f, hf, hd⟩
      exact ⟨f, hf, (mem_expandOne sys f d).mp hd⟩
    · rintro ⟨f, hf, hd⟩
      exact ⟨f, hf, (mem_expandOne sys f d).mpr hd⟩

/-- Witness for `addDep_files_symlink_expansion` at a concrete config and
path. -/
theorem addDep_files_symlink_expansion_witness :
    "/srv/data" ∈ expandFiles sys0 [{ src := "/srv/data", dst := "/data" }] ↔
      ∃ f ∈ [({ src := "/srv/data", dst := "/data" } : FileSpec)],
        (sys0.isdir f.src = true ∧ "/srv/data" ∈ sys0.walkFiles f.src
            ∧ sys0.islink "/srv/data" = false)
          ∨ (sys0.isdir f.src = false ∧ "/srv/data" = f.src
              ∧ sys0.islink f.src = false) :=
  (addDep_files_symlink_expansion sys0
    { name := "t", bin := "t.bin", img := some "t.img",
      files := some [{ src := "/srv/data", dst := "/data" }] }
    "t.img" [{ src := "/srv/data", dst := "/data" }] rfl rfl).2 "/srv/data"

/-- Helper: when `initramfs` and `img` are both present, `addDep` emits
both the plain binary rule and the initramfs-binary rule. -/
theorem addDep_emits_both_bins (sys : Host) (c : ConfigBase) (i : String)
    (hini : c.initramfs.isSome = true) (himg : c.img = some i) :
    (addDep sys c).2 = none ∧
      (∃ r ∈ (addDep sys c).1, r.name = c.bin ∧ r.targets = [c.bin]) ∧
      (∃ r ∈ (addDep sys c).1, r.name = c.bin ++ "-initramfs" ∧
        r.targets = [c.bin ++ "-initramfs"]) := by
  unfold addDep
  dsimp only
  rw [himg, if_pos hini]
  refine ⟨rfl, ?_, ?_⟩
  · exact ⟨{ name := c.bin, action := RuleAction.makeBinAct c false,
             targets := [c.bin], fileDep := optList c.linuxConfig,
             taskDep := [], hasUptodate := true },
           by simp, rfl, rfl⟩
  · exact ⟨{ name := c.bin ++ "-initramfs", action := RuleAction.makeBinAct c true,
             targets := [c.bin ++ "-initramfs"],
             fileDep := [i] ++ optList c.linuxConfig,
             taskDep := [i], hasUptodate := false },
           by simp, rfl, rfl⟩

/-- Workload configuration with one job that has no `img` field. -/
def cfgW : Config :=
  { name := "w", bin := "w.bin", jobs := some [{ name := "w-j", bin := "wj.bin" }] }

/-- Counterexample to claim C6 as stated: the flag is pushed down onto the
job, but rule emission for the job then fails with `KeyError 'img'` (the
job has no `img`), so no initramfs-binary rule targeting
`bin ++ "-initramfs"` is produced. -/
theorem initramfs_pushdown_cex :
    (pushInitramfs cfgW).jobs =
        some [{ name := "w-j", bin := "wj.bin", initramfs := some true }] ∧
      (addDep sys0 { name := "w-j", bin := "wj.bin", initramfs := some true }).2 =
        some (Err.keyError "img") ∧
      ∀ r ∈ (addDep sys0 { name := "w-j", bin := "wj.bin", initramfs := some true }).1,
        r.targets ≠ ["wj.bin-initramfs"] := by
  decide

/-- Claim C6 (amended): the `initramfs` flag is pushed down onto every job
record before rule emission, and every such job that also carries an `img`
field yields both the plain binary rule (target `bin`) and the
initramfs-binary rule (target `bin ++ "-initramfs"`); a job without `img`
instead fails rule emission with `KeyError 'img'`. -/
theorem initramfs_pushdown_rules (sys : Host) (cfg : Config)
    (js : List ConfigBase) (j : ConfigBase)
    (hjs : (pushInitramfs cfg).jobs = some js) (hj : j ∈ js) :
    j.initramfs = some true ∧
      ∀ i, j.img = some i →
        (addDep sys j).2 = none ∧
          (∃ r ∈ (addDep sys j).1, r.name = j.bin ∧ r.targets = [j.bin]) ∧
          (∃ r ∈ (addDep sys j).1, r.name = j.bin ++ "-initramfs" ∧
            r.targets = [j.bin ++ "-initramfs"]) := by
  unfold pushInitramfs at hjs
  cases hjobs : cfg.jobs with
  | none =>
    rw [hjobs] at hjs
    exact absurd hjs (by simp)
  | some js0 =>
    rw [hjobs] at hjs
    dsimp only at hjs
    have hmap : js = js0.map fun j0 => { j0 with initramfs := some true } :=
      (Option.some.injEq _ _ ▸ hjs).symm
    subst hmap
    obtain ⟨j0, hj0, rfl⟩ := List.mem_map.mp hj
    refine ⟨rfl, ?_⟩
    intro i himg
    exact addDep_emits_both_bins sys _ i rfl himg

/-- Witness for `initramfs_pushdown_rules` at a concrete config tree. -/
theorem initramfs_pushdown_rules_witness :
    ({ name := "j1", bin := "j1.bin", img := some "j1.img",
       initramfs := some true } : ConfigBase).initramfs = some true :=
  (initramfs_pushdown_rules sys0
    { name := "p", bin := "p.bin",
      jobs := some [{ name := "j1", bin := "j1.bin", img := some "j1.img" }] }
    [{ name := "j1", bin := "j1.bin", img := some "j1.img", initramfs := some true }]
    { name := "j1", bin := "j1.bin", img := some "j1.img", initramfs := some true }
    rfl (by decide)).1

/-- Claim C10: `getSpikeCmd` with `initramfs=True` always returns the spike
command on `bin ++ "-initramfs"`, even for disk-based configurations; with
`initramfs=False` it raises `ValueError` exactly when `img` is present and
otherwise returns the spike command on `bin`. -/
theorem getSpikeCmd_spec (cfg : ConfigBase) :
    getSpikeCmd cfg true = Except.ok ("spike -p4 -m4096 " ++ cfg.bin ++ "-initramfs") ∧
      (cfg.img = none →
        getSpikeCmd cfg false = Except.ok ("spike -p4 -m4096 " ++ cfg.bin)) ∧
      ((∃ e, getSpikeCmd cfg false = Except.error e) ↔ cfg.img.isSome = true) := by
  refine ⟨rfl, ?_, ?_⟩
  · intro h
    simp [getSpikeCmd, h]
  · cases h : cfg.img <;> simp [getSpikeCmd, h]

/-- Witness for `getSpikeCmd_spec` at concrete configs. -/
theorem getSpikeCmd_spec_witness :
    getSpikeCmd { name := "t", bin := "t.bin" } false =
      Except.ok ("spike -p4 -m4096 " ++ "t.bin") :=
  (getSpikeCmd_spec { name := "t", bin := "t.bin" }).2.1 rfl

/-!
Path algebra for claim C4: a canonical absolute path is `/"` followed by
slash-joined components that are nonempty, not `.`/`..`, and slash-free.
On such paths `normpath (mnt ++ dst)` is exactly `mnt ++ dst`, i.e. the
inbound copy target appends the destination to the mount point.
-/

/-- A canonical path component: nonempty, not a dot component, slash-free. -/
abbrev cleanComp (c : List Char) : Prop :=
  c ≠ [] ∧ c ≠ ['.'] ∧ c ≠ ['.', '.'] ∧ '/' ∉ c

/-- The canonical absolute path with the given components. -/
def renderAbs (cs : List (List Char)) : String :=
  ⟨'/' :: joinSlash cs⟩

/-- Helper: `splitSlash` never returns the empty list. -/
theorem splitSlash_ne_nil (cs : List Char) : splitSlash cs ≠ [] := by
  induction cs with
  | nil => simp [splitSlash]
  | cons c rest ih =>
    unfold splitSlash
    by_cases h : c = '/'
    · simp [h]
    · rw [if_neg h]
      cases hs : splitSlash rest with
      | nil => exact absurd hs ih
      | cons a t => simp

/-- Helper: unfolding `splitSlash` at a slash. -/
theorem splitSlash_cons_slash (rest : List Char) :
    splitSlash ('/' :: rest) = [] :: splitSlash rest := by
  simp [splitSlash]

/-- Helper: unfolding `splitSlash` at a non-slash character. -/
theorem splitSlash_cons_ne (c : Char) (h : c ≠ '/') (rest : List Char)
    (a : List Char) (t : List (List Char)) (hs : splitSlash rest = a :: t) :
    splitSlash (c :: rest) = (c :: a) :: t := by
  unfold splitSlash
  rw [if_neg h, hs]

/-- Helper: `splitSlash` distributes over a separator between two parts. -/
theorem splitSlash_append (xs ys : List Char) :
    splitSlash (xs ++ '/' :: ys) = splitSlash xs ++ splitSlash ys := by
  induction xs with
  | nil =>
    rw [List.nil_append, splitSlash_cons_slash]
    rfl
  | cons c xs ih =>
    by_cases h : c = '/'
    · subst h
      rw [List.cons_append, splitSlash_cons_slash, ih, splitSlash_cons_slash]
      rfl
    · rw [List.cons_append]
      cases hs : splitSlash xs with
      | nil => exact absurd hs (splitSlash_ne_nil xs)
      | cons a t =>
        have hs2 : splitSlash (xs ++ '/' :: ys) = a :: (t ++ splitSlash ys) := by
          rw [ih, hs]
          rfl
        rw [splitSlash_cons_ne c h _ a (t ++ splitSlash ys) hs2,
          splitSlash_cons_ne c h xs a t hs]
        rfl

/-- Helper: a slash-free nonempty chunk is a single component. -/
theorem splitSlash_no_slash : ∀ (c : List Char), '/' ∉ c → c ≠ [] →
    splitSlash c = [c]
  | [], _, hne => absurd rfl hne
  | [a], h, _ => by
    have ha : a ≠ '/' := fun e => h (by simp [e])
    simp [splitSlash, ha]
  | a :: b :: t, h, _ => by
    have ha : a ≠ '/' := fun e => h (by simp [e])
    have hrec := splitSlash_no_slash (b :: t)
      (fun hm => h (List.mem_cons_of_mem _ hm)) (by simp)
    rw [splitSlash_cons_ne a ha (b :: t) (b :: t) [] hrec]

/-- Helper: `splitSlash` inverts `joinSlash` on slash-free components. -/
theorem splitSlash_joinSlash : ∀ (cs : List (List Char)),
    (∀ c ∈ cs, '/' ∉ c ∧ c ≠ []) → cs ≠ [] →
    splitSlash (joinSlash cs) = cs
  | [], _, hne => absurd rfl hne
  | [c], h, _ => by
    obtain ⟨h1, h2⟩ := h c (by simp)
    simp [joinSlash, splitSlash_no_slash c h1 h2]
  | c :: c2 :: rest, h, _ => by
    have hc := h c (by simp)
    have hrec := splitSlash_joinSlash (c2 :: rest)
      (fun x hx => h x (by simp [hx])) (by simp)
    show splitSlash (c ++ '/' :: joinSlash (c2 :: rest)) = c :: c2 :: rest
    rw [splitSlash_append, splitSlash_no_slash c hc.1 hc.2, hrec]
    rfl

/-- Helper: on clean components the normpath loop keeps everything. -/
theorem procComps_clean (n : Nat) : ∀ (comps acc : List (List Char)),
    (∀ c ∈ comps, c ≠ [] ∧ c ≠ ['.'] ∧ c ≠ ['.', '.']) →
    procComps n acc comps = acc.reverse ++ comps
  | [], acc, _ => by simp [procComps]
  | comp :: rest, acc, h => by
    obtain ⟨h1, h2, h3⟩ := h comp (by simp)
    unfold procComps
    rw [if_neg (by simp [h1, h2]), if_pos (Or.inl h3),
      procComps_clean n rest (comp :: acc) (fun x hx => h x (by simp [hx]))]
    simp

/-- Helper: `joinSlash` across an append of nonempty component lists. -/
theorem joinSlash_append : ∀ (a b : List (List Char)), a ≠ [] → b ≠ [] →
    joinSlash (a ++ b) = joinSlash a ++ '/' :: joinSlash b
  | [], _, ha, _ => absurd rfl ha
  | [x], b, _, hb => by
    cases b with
    | nil => exact absurd rfl hb
    | cons y t => rfl
  | x :: x2 :: rest, b, _, hb => by
    have hrec := joinSlash_append (x2 :: rest) b (by simp) hb
    show x ++ '/' :: joinSlash ((x2 :: rest) ++ b)
      = (x ++ '/' :: joinSlash (x2 :: rest)) ++ '/' :: joinSlash b
    rw [hrec]
    simp

/-- Helper: `joinSlash` on a cons starts with the first component. -/
theorem joinSlash_cons_head (c : List Char) (rest : List (List Char)) :
    ∃ tail, joinSlash (c :: rest) = c ++ tail := by
  cases rest with
  | nil => exact ⟨[], by simp [joinSlash]⟩
  | cons d t => exact ⟨'/' :: joinSlash (d :: t), rfl⟩

/-- Helper: `normpathCore` of the concatenation of two canonical absolute
paths is the canonical absolute path of the concatenated components. -/
theorem normpathCore_abs_append (mcs dcs : List (List Char))
    (hm : ∀ c ∈ mcs, cleanComp c) (hd : ∀ c ∈ dcs, cleanComp c)
    (hm0 : mcs ≠ []) (hd0 : dcs ≠ []) :
    normpathCore (('/' :: joinSlash mcs) ++ ('/' :: joinSlash dcs)) =
      '/' :: joinSlash (mcs ++ dcs) := by
  obtain ⟨m0, mrest, rfl⟩ : ∃ m0 mrest, mcs = m0 :: mrest := by
    cases mcs with
    | nil => exact absurd rfl hm0
    | cons a b => exact ⟨a, b, rfl⟩
  have hm0c : cleanComp m0 := hm m0 (by simp)
  obtain ⟨ch0, m0t, rfl⟩ : ∃ ch0 m0t, m0 = ch0 :: m0t := by
    cases m0 with
    | nil => exact absurd rfl hm0c.1
    | cons a b => exact ⟨a, b, rfl⟩
  have hch0 : ch0 ≠ '/' := fun e => hm0c.2.2.2 (e ▸ List.mem_cons_self _ _)
  obtain ⟨tail, htail⟩ := joinSlash_cons_head (ch0 :: m0t) mrest
  have hL : ('/' :: joinSlash ((ch0 :: m0t) :: mrest)) ++ ('/' :: joinSlash dcs)
      = '/' :: ch0 :: (m0t ++ tail ++ '/' :: joinSlash dcs) := by
    rw [htail]
    simp
  have htake2 : (('/' :: joinSlash ((ch0 :: m0t) :: mrest))
      ++ ('/' :: joinSlash dcs)).take 2 = ['/', ch0] := by
    rw [hL]
    rfl
  have hhead : (('/' :: joinSlash ((ch0 :: m0t) :: mrest))
      ++ ('/' :: joinSlash dcs)).head? = some '/' := by
    rw [hL]
    rfl
  have hcond1 : ¬((('/' :: joinSlash ((ch0 :: m0t) :: mrest))
      ++ ('/' :: joinSlash dcs)).take 2 = ['/', '/']
      ∧ (('/' :: joinSlash ((ch0 :: m0t) :: mrest))
          ++ ('/' :: joinSlash dcs)).take 3 ≠ ['/', '/', '/']) := by
    intro hc
    rw [htake2] at hc
    obtain ⟨hc1, -⟩ := hc
    simp at hc1
    exact hch0 hc1
  have hsplit : splitSlash (('/' :: joinSlash ((ch0 :: m0t) :: mrest))
      ++ ('/' :: joinSlash dcs))
      = [] :: (((ch0 :: m0t) :: mrest) ++ dcs) := by
    show splitSlash ('/' :: (joinSlash ((ch0 :: m0t) :: mrest)
      ++ '/' :: joinSlash dcs)) = _
    rw [splitSlash_cons_slash, splitSlash_append,
      splitSlash_joinSlash ((ch0 :: m0t) :: mrest)
        (fun x hx => ⟨(hm x hx).2.2.2, (hm x hx).1⟩) (by simp),
      splitSlash_joinSlash dcs
        (fun x hx => ⟨(hd x hx).2.2.2, (hd x hx).1⟩) hd0]
  have hproc : procComps 1 [] ([] :: (((ch0 :: m0t) :: mrest) ++ dcs))
      = ((ch0 :: m0t) :: mrest) ++ dcs := by
    unfold procComps
    rw [if_pos (Or.inl rfl)]
    rw [procComps_clean 1 (((ch0 :: m0t) :: mrest) ++ dcs) []
      (fun x hx => by
        rcases List.mem_append.mp hx with hx | hx
        · exact ⟨(hm x hx).1, (hm x hx).2.1, (hm x hx).2.2.1⟩
        · exact ⟨(hd x hx).1, (hd x hx).2.1, (hd x hx).2.2.1⟩)]
    rfl
  unfold normpathCore
  rw [if_neg hcond1, if_pos hhead, hsplit]
  dsimp only
  rw [hproc]
  rfl

/-- Helper: `normpath` of two concatenated canonical absolute paths. -/
theorem normpath_abs_append (mcs dcs : List (List Char))
    (hm : ∀ c ∈ mcs, cleanComp c) (hd : ∀ c ∈ dcs, cleanComp c)
    (hm0 : mcs ≠ []) (hd0 : dcs ≠ []) :
    normpath (renderAbs mcs ++ renderAbs dcs) = renderAbs (mcs ++ dcs) := by
  have hdata : (renderAbs mcs ++ renderAbs dcs).toList
      = ('/' :: joinSlash mcs) ++ ('/' :: joinSlash dcs) := rfl
  have hne : renderAbs mcs ++ renderAbs dcs ≠ "" := by
    intro e
    have h0 := congrArg String.toList e
    rw [hdata] at h0
    exact absurd h0 (by simp)
  unfold normpath
  rw [if_neg hne]
  dsimp only
  rw [hdata, normpathCore_abs_append mcs dcs hm hd hm0 hd0,
    if_neg (by simp : ¬('/' :: joinSlash (mcs ++ dcs)) = [])]
  rfl

/-- Helper: two concatenated canonical absolute paths form the canonical
absolute path of the concatenated components. -/
theorem renderAbs_append (mcs dcs : List (List Char))
    (hm0 : mcs ≠ []) (hd0 : dcs ≠ []) :
    renderAbs mcs ++ renderAbs dcs = renderAbs (mcs ++ dcs) := by
  show String.mk (('/' :: joinSlash mcs) ++ ('/' :: joinSlash dcs))
    = String.mk ('/' :: joinSlash (mcs ++ dcs))
  rw [joinSlash_append mcs dcs hm0 hd0]
  rfl

/-- Counterexample to claim C4 as stated: the destination "/etc/motd"
begins with a path separator, yet the computed inbound copy target is
`normpath(mnt + dst)` = "/mnt/firesim/etc/motd" — the destination joined
onto the mount point, not the destination "/etc/motd" itself, and that is
exactly the rsync target issued inside the mount transaction. -/
theorem inbound_dst_replaces_cex :
    ("/etc/motd" : String).toList.head? = some '/' ∧
      inboundTarget sys0 { src := "/host/motd", dst := "/etc/motd" } =
        "/mnt/firesim/etc/motd" ∧
      inboundTarget sys0 { src := "/host/motd", dst := "/etc/motd" } ≠
        "/etc/motd" ∧
      (copyImgFiles sys0 "test.img" [{ src := "/host/motd", dst := "/etc/motd" }] "in").1
        = [Event.runArgs ["sudo", "mount", "-o", "loop", "test.img", "/mnt/firesim"] none,
           Event.runCmd "sudo rsync -a --chown=root:root /host/motd /mnt/firesim/etc/motd",
           Event.runArgs ["sudo", "umount", "/mnt/firesim"] none] := by
  refine ⟨rfl, by decide, by decide, by decide⟩

/-- Claim C4 (amended): for a canonical absolute mount point and a
destination beginning with a path separator (a canonical absolute path),
the inbound copy target is `normpath(mnt ++ dst)` = `mnt ++ dst`: the
destination is appended to (joins onto) the mount point rather than
replacing it, and in particular the target is never the destination path
itself. -/
theorem inbound_dst_joins_mount_point (env : Host) (f : FileSpec)
    (mcs dcs : List (List Char))
    (hm : ∀ c ∈ mcs, cleanComp c) (hd : ∀ c ∈ dcs, cleanComp c)
    (hm0 : mcs ≠ []) (hd0 : dcs ≠ [])
    (hmnt : env.mnt = renderAbs mcs) (hdst : f.dst = renderAbs dcs) :
    f.dst.toList.head? = some '/' ∧
      inboundTarget env f = env.mnt ++ f.dst ∧
      inboundTarget env f ≠ f.dst := by
  have htgt : inboundTarget env f = env.mnt ++ f.dst := by
    show normpath (env.mnt ++ f.dst) = env.mnt ++ f.dst
    rw [hmnt, hdst]
    calc normpath (renderAbs mcs ++ renderAbs dcs)
        = renderAbs (mcs ++ dcs) := normpath_abs_append mcs dcs hm hd hm0 hd0
      _ = renderAbs mcs ++ renderAbs dcs := (renderAbs_append mcs dcs hm0 hd0).symm
  have hne2 : env.mnt ++ f.dst ≠ f.dst := by
    intro heq
    have hlen := congrArg String.length heq
    rw [String.length_append] at hlen
    have h0 : env.mnt.length = 0 := by omega
    rw [hmnt] at h0
    have h0' : ('/' :: joinSlash mcs).length = 0 := h0
    simp at h0'
  refine ⟨?_, htgt, ?_⟩
  · rw [hdst]
    rfl
  · rw [htgt]
    exact hne2

/-- Witness for `inbound_dst_joins_mount_point` at the concrete mount
point "/mnt/firesim" and destination "/etc/motd". -/
theorem inbound_dst_joins_mount_point_witness :
    inboundTarget sys0 { src := "/host/motd", dst := "/etc/motd" } ≠ "/etc/motd" :=
  (inbound_dst_joins_mount_point sys0 { src := "/host/motd", dst := "/etc/motd" }
    [['m', 'n', 't'], ['f', 'i', 'r', 'e', 's', 'i', 'm']]
    [['e', 't', 'c'], ['m', 'o', 't', 'd']]
    (by decide) (by decide) (by decide) (by decide) (by decide) (by decide)).2.2
